import Mathlib

/-!
Verification of the request-handling core of the `sharp_pencil` web framework.

The repository carries two generations of the code side by side:
an early generation under `src/pencil/` (`app.rs` with the dispatch
pipeline, `wrappers.rs` with the ordered multi-value `Headers` map and a
simple `Response`), and a later generation at the top of `src/`
(`wrappers.rs` with the lazy `Request` caches and a hyper-based
`Response`, `formparser.rs`, `helpers.rs`, `httputils.rs`).

Pure functions are translated directly; the stateful request caches are
translated as explicit state passing; fallible code returns `Except`.
External collaborators (the `url` crate's form-urlencoded codec, hyper's
status table and header map, the routing module and the old generation's
`types`/`errors`/`helpers` modules, which are not part of the source
tree) are modelled explicitly, each with a note at its definition.
Machine strings are modelled as Lean `String`s (byte positions only ever
matter for ASCII data here) and byte buffers as `List Nat` with bytes
below 256.
-/

/-! ## ASCII helpers

`asciiLowerChar`/`asciiLower` translate Rust's `to_ascii_lower` used by
the old generation's `Headers` (src/pencil/wrappers.rs): only the ASCII
letters A-Z are lowered.
-/

def asciiLowerChar (c : Char) : Char :=
  if 'A' ≤ c ∧ c ≤ 'Z' then Char.ofNat (c.toNat + 32) else c

def asciiLower (s : String) : String :=
  ⟨s.data.map asciiLowerChar⟩

/-- `leadMatch pat l` is true when `pat` is a leading segment of `l`.
Translates Rust `str::starts_with` at the character-list level. -/
def leadMatch : List Char → List Char → Bool
  | [], _ => true
  | _ :: _, [] => false
  | a :: as, b :: bs => a = b && leadMatch as bs

/-- Rust `str::starts_with` on strings. -/
def strHasLead (s pat : String) : Bool :=
  leadMatch pat.data s.data

/-- Rust `str::ends_with` on strings. -/
def strHasTail (s pat : String) : Bool :=
  leadMatch pat.data.reverse s.data.reverse

/-- `subOccurs sub l` is true when `sub` occurs contiguously inside `l`. -/
def subOccurs (sub : List Char) : List Char → Bool
  | [] => sub.isEmpty
  | c :: rest => leadMatch sub (c :: rest) || subOccurs sub rest

/-- Rust `str::contains` with a string pattern. -/
def strHasSub (s pat : String) : Bool :=
  subOccurs pat.data s.data

/-! ## `httputils.rs` (new generation) -/

/-- Modelled from hyper's `StatusCode::canonical_reason` table (external
collaborator of `httputils.rs`): the canonical reason phrases for the
status codes this development touches. -/
def canonicalReason : Nat → Option String
  | 200 => some "OK"
  | 206 => some "Partial Content"
  | 301 => some "Moved Permanently"
  | 302 => some "Found"
  | 400 => some "Bad Request"
  | 404 => some "Not Found"
  | 405 => some "Method Not Allowed"
  | 500 => some "Internal Server Error"
  | _ => none

/-- `get_name_by_http_code` from `src/httputils.rs`: status name by code,
via the status table. -/
def get_name_by_http_code (code : Nat) : Option String :=
  canonicalReason code

/-- `get_content_type` from `src/httputils.rs`: the full content type,
with the charset appended for text-like mimetypes that do not already
mention a charset. -/
def get_content_type (mimetype charset : String) : String :=
  if (strHasLead mimetype "text/" || (mimetype == "application/xml") ||
      (strHasLead mimetype "application/" && strHasTail mimetype "+xml")) &&
     !(strHasSub mimetype "charset") then
    mimetype ++ "; charset=" ++ charset
  else
    mimetype

/-! ## Old-generation `Headers` (src/pencil/wrappers.rs)

An ordered multi-value map over string pairs.  The imperative loops of
`remove` and `set` (which build `newlist` by pushing in iteration order
while threading `rv` / `key_existed`) are translated as structural
recursions carrying the same state.
-/

structure Headers where
  list : List (String × String)
deriving DecidableEq

/-- Body of the `Headers::remove` loop: walk the list, keep pairs whose
lowered key differs from `ikey`; for a matching pair, assign
`rv = Some(v)` only when `rv` is already non-`None` (the source's
`else if rv != None` branch). -/
def Headers.removeAux (ikey : String) :
    List (String × String) → Option String → List (String × String) × Option String
  | [], rv => ([], rv)
  | (k, v) :: rest, rv =>
    if asciiLower k ≠ ikey then
      let (nl, rv') := Headers.removeAux ikey rest rv
      ((k, v) :: nl, rv')
    else if rv ≠ none then
      Headers.removeAux ikey rest (some v)
    else
      Headers.removeAux ikey rest rv

/-- `Headers::remove` from src/pencil/wrappers.rs. -/
def Headers.remove (h : Headers) (key : String) : Headers × Option String :=
  let (newlist, rv) := Headers.removeAux (asciiLower key) h.list none
  (⟨newlist⟩, rv)

/-- Body of the `Headers::set` loop: keep non-matching pairs; at the
first matching pair push the new `(key, value)` and raise the
`key_existed` flag; drop later matching pairs.  After the walk, a pair
is appended only when the flag was never raised. -/
def Headers.setAux (ikey key value : String) :
    List (String × String) → Bool → List (String × String)
  | [], key_existed => if key_existed then [] else [(key, value)]
  | (k, v) :: rest, key_existed =>
    if asciiLower k ≠ ikey then
      (k, v) :: Headers.setAux ikey key value rest key_existed
    else if !key_existed then
      (key, value) :: Headers.setAux ikey key value rest true
    else
      Headers.setAux ikey key value rest key_existed

/-- `Headers::set` from src/pencil/wrappers.rs. -/
def Headers.set (h : Headers) (key value : String) : Headers :=
  ⟨Headers.setAux (asciiLower key) key value h.list false⟩

/-- `Headers::add` from src/pencil/wrappers.rs. -/
def Headers.add (h : Headers) (key value : String) : Headers :=
  ⟨h.list ++ [(key, value)]⟩

/-- `Headers::get` from src/pencil/wrappers.rs: first value whose key
matches case-insensitively. -/
def Headers.get (h : Headers) (key : String) : Option String :=
  (h.list.find? (fun kv => asciiLower kv.1 = asciiLower key)).map (·.2)

/-! ## Old-generation `Response` (src/pencil/wrappers.rs) -/

/-- The old generation's `Response`: a status code, the ordered header
map and a string body.  `status::Status` of the `http` crate is modelled
by its numeric code (`canonicalReason` recovers the reason phrase). -/
structure ResponseO where
  status : Nat
  headers : Headers
  body : String
deriving DecidableEq

/-- `Response::new` from src/pencil/wrappers.rs: status 200, a
`text/plain` content type and the content length of the body.  Rust's
`len` is a byte count; the bodies in this development are ASCII, where
`String.length` agrees with it. -/
def ResponseO.new (body : String) : ResponseO :=
  let r : ResponseO := { status := 200, headers := ⟨[]⟩, body := body }
  let headers := (r.headers.set "Content-Type" "text/plain; charset=utf-8").set
    "Content-Length" (toString body.length)
  { r with headers := headers }

/-! ## Old-generation dispatch pipeline (src/pencil/app.rs)

The old generation's `types.rs`, `errors.rs` and `helpers.rs` are not
part of the source tree (only `app.rs` imports them), so the error
taxonomy, `to_response` and `make_response` are modelled from the spec;
everything in `Pencil` itself is translated from `app.rs`.  The routing
collaborator (`url_map.bind(...).captures()`) is opaque per the spec and
enters as a `CapturesOutcome` parameter.  `println!` side effects are
recorded as a trace of events, which is how hook execution is observed.
-/

/-- Modelled from the spec: an HTTP error is a structured condition with
a status code and canonical description (spec section 7), standing in for
the missing `errors.rs`. -/
structure HTTPErrorM where
  code : Nat
deriving DecidableEq

/-- Modelled from the spec: the error discriminant of an HTTP error is
its HTTP status description (spec sections 4.1 and 7). -/
def HTTPErrorM.description (e : HTTPErrorM) : String :=
  (canonicalReason e.code).getD "Unknown Error"

/-- Modelled from the spec: an HTTP error is always convertible to a
Response (spec section 7); the response carries the error's status code
and its canonical description as body. -/
def HTTPErrorM.to_response (e : HTTPErrorM) : ResponseO :=
  { ResponseO.new e.description with status := e.code }

/-- Modelled from the spec: a user error is an application-defined
condition identified by a description string (spec section 7), standing
in for the missing `errors.rs`. -/
structure UserErrorM where
  desc : String
deriving DecidableEq

/-- `PencilError` of the missing `types.rs`, modelled from the spec's
error taxonomy: an HTTP error or a user error. -/
inductive PencilError where
  | PenHTTPError (e : HTTPErrorM)
  | PenUserError (e : UserErrorM)
deriving DecidableEq

/-- The discriminant used for handler lookup: HTTP status description or
user-error description (spec section 6). -/
def PencilError.description : PencilError → String
  | .PenHTTPError e => e.description
  | .PenUserError e => e.desc

/-- `PencilValue` of the missing `types.rs`, modelled from the spec: a
view's success value is either a string or a ready response. -/
inductive PencilValue where
  | PenString (s : String)
  | PenResponse (r : ResponseO)
deriving DecidableEq

/-- `PencilResult` (`Result<PencilValue, PencilError>`). -/
abbrev PencilResult := Except PencilError PencilValue

/-- The outcome of `url_map.bind(..).captures()` in `dispatch_request`.
Routing is an external collaborator; `ok` carries the matched rule's
endpoint and parameters, `err` is any non-`Ok` outcome (matched by the
source's catch-all `_` arm). -/
inductive CapturesOutcome where
  | ok (endpoint : String) (params : List String)
  | err
deriving DecidableEq

/-- Observable side effects of the dispatch pipeline: the `println!`
calls of the hook runners and of `log_error`. -/
inductive Event where
  | beforeHook (s : String)
  | teardownHook (s : String)
  | logError (s : String)
deriving DecidableEq

def Event.isTeardown : Event → Bool
  | .teardownHook _ => true
  | _ => false

/-- The `Pencil` application object (src/pencil/app.rs), restricted to
the fields the dispatch pipeline reads.  `view_functions` and
`error_handlers` are `HashMap`s with unique keys, modelled as
association lists queried with `List.lookup`. -/
structure Pencil where
  view_functions : List (String × (List String → PencilResult))
  before_request_funcs : List String
  after_request_funcs : List String
  teardown_request_funcs : List String
  error_handlers : List (String × PencilResult)

/-- `Pencil::preprocess_request`: prints every before-request function
(observed as `beforeHook` events). -/
def Pencil.preprocess_request (app : Pencil) : List Event :=
  app.before_request_funcs.map Event.beforeHook

/-- `Pencil::process_response`: appends every after-request function to
the response body. -/
def Pencil.process_response (app : Pencil) (response : ResponseO) : ResponseO :=
  { response with body := app.after_request_funcs.foldl (fun b x => b ++ x) response.body }

/-- `Pencil::do_teardown_request`: prints every teardown function
(observed as `teardownHook` events). -/
def Pencil.do_teardown_request (app : Pencil) : List Event :=
  app.teardown_request_funcs.map Event.teardownHook

/-- `Pencil::dispatch_request`: on a routing match, call the registered
view function (or answer "No such handler"); on any other routing
outcome answer `Ok(PenString("404"))`. -/
def Pencil.dispatch_request (app : Pencil) (cap : CapturesOutcome) : PencilResult :=
  match cap with
  | .ok endpoint params =>
    match app.view_functions.lookup endpoint with
    | some view_func => view_func params
    | none => .ok (.PenString "No such handler")
  | .err => .ok (.PenString "404")

/-- Modelled from the spec: `make_response` of the missing old-generation
`helpers.rs` converts a view's success value to a real response object
(spec section 4.1 step 3): a string becomes a fresh `Response`, a ready
response passes through. -/
def make_response (rv : PencilValue) : ResponseO :=
  match rv with
  | .PenString s => ResponseO.new s
  | .PenResponse r => r

/-- `Pencil::handle_http_error`: a registered handler's stored result
replaces the error, otherwise the error's own response. -/
def Pencil.handle_http_error (app : Pencil) (e : HTTPErrorM) : PencilResult :=
  match app.error_handlers.lookup e.description with
  | some handler => handler
  | none => .ok (.PenResponse e.to_response)

/-- `Pencil::handle_user_error`: HTTP errors go to `handle_http_error`;
user errors are answered by a registered handler or re-raised. -/
def Pencil.handle_user_error (app : Pencil) (e : PencilError) : PencilResult :=
  match e with
  | .PenHTTPError e => app.handle_http_error e
  | .PenUserError e =>
    match app.error_handlers.lookup e.desc with
    | some handler => handler
    | none => .error (.PenUserError e)

/-- `Pencil::handle_error`: logs the error; a registered handler's `Ok`
value is used, a handler's `Err` and a missing handler both degrade to
the Internal Server Error response. -/
def Pencil.handle_error (app : Pencil) (e : PencilError) : PencilValue × List Event :=
  let value :=
    match app.error_handlers.lookup e.description with
    | some handler =>
      match handler with
      | .ok value => value
      | .error _ => .PenResponse (HTTPErrorM.to_response ⟨500⟩)
    | none => .PenResponse (HTTPErrorM.to_response ⟨500⟩)
  (value, [Event.logError e.description])

/-- `Pencil::full_dispatch_request`: pre-hooks, dispatch, the
user-error cascade, then response materialisation and post-hooks. -/
def Pencil.full_dispatch_request (app : Pencil) (cap : CapturesOutcome) :
    Except PencilError ResponseO × List Event :=
  match (match app.dispatch_request cap with
         | .ok value => (.ok value : PencilResult)
         | .error e => app.handle_user_error e) with
  | .ok value => (.ok (app.process_response (make_response value)), app.preprocess_request)
  | .error e => (.error e, app.preprocess_request)

/-- `Pencil::handle_request`: the total dispatch boundary; a failing
full dispatch is converted through `handle_error`. -/
def Pencil.handle_request (app : Pencil) (cap : CapturesOutcome) :
    ResponseO × List Event :=
  match app.full_dispatch_request cap with
  | (.ok response, tr) => (response, tr)
  | (.error e, tr) =>
    let (value, tr2) := app.handle_error e
    (make_response value, tr ++ tr2)

/-! ## New-generation `Response` (src/wrappers.rs)

Hyper's `HeaderMap` with the `typed_insert` calls used by the source is
modelled as an ordered association list with lower-cased header names
and rendered string values; `insert` replaces the value of an existing
name in place and appends otherwise (the maps built here never hold a
duplicate name).  The `Mime` parse/format round trip in
`set_content_type` is the identity on the well-formed content types
considered here and is modelled as such.
-/

/-- Replace the value at name `k` in place, or append `(k, v)`. -/
def headerInsertN : List (String × String) → String → String → List (String × String)
  | [], k, v => [(k, v)]
  | (k', v') :: rest, k, v =>
    if k' = k then (k, v) :: rest else (k', v') :: headerInsertN rest k v

/-- The new generation's `Response`: status code, header map, optional
byte body. -/
structure ResponseN where
  status_code : Nat
  headers : List (String × String)
  body : Option (List Nat)
deriving DecidableEq

/-- `Response::new` from src/wrappers.rs: status 200 and a
`text/html; charset=UTF-8` content type. -/
def ResponseN.new (body : List Nat) : ResponseN :=
  { status_code := 200,
    headers := headerInsertN [] "content-type" "text/html; charset=UTF-8",
    body := some body }

/-- `Response::set_content_type` from src/wrappers.rs: store the result
of `get_content_type(mimetype, "UTF-8")` under the Content-Type name. -/
def ResponseN.set_content_type (r : ResponseN) (mimetype : String) : ResponseN :=
  { r with headers := headerInsertN r.headers "content-type" (get_content_type mimetype "UTF-8") }

/-- `Response::content_type` from src/wrappers.rs (via `typed_get`). -/
def ResponseN.content_type (r : ResponseN) : Option String :=
  r.headers.lookup "content-type"

/-! ## `send_file_range` (src/helpers.rs)

The file system enters as the byte content of the addressed file plus a
flag for `is_file`; the `Range` header of the `headers` crate is a list
of `(start-bound, end-bound)` pairs.  `ContentRange::bytes(start..end,
complete)` of the `headers` crate validates `start < end ∧ end ≤
complete` and renders `bytes start-(end-1)/complete`; the source
unwraps its result with `expect`, so a rejected range is a panic,
modelled as the `none` payload of the outer `ok`. -/

inductive RBound where
  | unbounded
  | included (n : Nat)
  | excluded (n : Nat)
deriving DecidableEq

/-- Rendering of a `Content-Range` header value for
`ContentRange::bytes(first..lastPlusOne, complete)`. -/
def contentRangeRender (first last complete : Nat) : String :=
  "bytes " ++ toString first ++ "-" ++ toString last ++ "/" ++ toString complete

/-- `send_file_range` from src/helpers.rs over the modelled file system.
`isFile` is `filepath.is_file()`, `content` the file's bytes (so `len`
is `content.length`), `filename` the file-name component used by the
attachment branch.  The returned `none` payload models the `expect`
panic on a `ContentRange` the headers crate rejects. -/
def send_file_range (isFile : Bool) (content : List Nat) (mimetype : String)
    (as_attachment : Bool) (filename : Option String)
    (range : Option (List (RBound × RBound))) :
    Except PencilError (Option ResponseN) :=
  if !isFile then
    .error (.PenHTTPError ⟨404⟩)
  else
    let len := content.length
    let resp? : Option ResponseN :=
      match range with
      | some ranges =>
        match ranges with
        | [(start, end_)] =>
          let start := match start with
            | .unbounded => 0
            | .included s => s
            | .excluded s => s + 1
          let end_ := match end_ with
            | .unbounded => len
            | .included e => e + 1
            | .excluded e => e
          let buf := (content.drop start).take (end_ - start)
          let content_len := buf.length
          let resp := { ResponseN.new buf with status_code := 206 }
          let resp := { resp with
            headers := headerInsertN resp.headers "content-length" (toString content_len) }
          if start < end_ ∧ end_ ≤ content_len then
            some { resp with
              headers := headerInsertN resp.headers "content-range"
                (contentRangeRender start (end_ - 1) content_len) }
          else
            none
        | _ =>
          let resp := ResponseN.new content
          some { resp with
            headers := headerInsertN resp.headers "content-length" (toString len) }
      | none =>
        let resp := ResponseN.new content
        some { resp with
          headers := headerInsertN resp.headers "content-length" (toString len) }
    match resp? with
    | none => .ok none
    | some resp =>
      let resp := { resp with
        headers := headerInsertN resp.headers "content-type" mimetype }
      if as_attachment then
        match filename with
        | some name =>
          .ok (some { resp with
            headers := headerInsertN resp.headers "content-disposition"
              ("attachment; filename=" ++ name) })
        | none => .error (.PenUserError ⟨"filename unavailable, required for sending as attachment."⟩)
      else
        .ok (some resp)

/-! ## Lazy form/files caches (src/wrappers.rs)

`Request` keeps `form` and `files` in `LazyCell`s; `load_form_data`
returns at once when the form cell is filled and otherwise runs
`formparser::parse` over the body and fills both cells.  The cells are
explicit state here, together with a counter of parser invocations
(each of which drains the body); the parser's outcome for this request's
body is the fixed value `pr`.  The `MultiDict` payloads are opaque type
parameters.  `form()` and `files()` unwrap the `load_form_data` result
with `expect`, so a parse failure is a panic, modelled as `none`.
-/

structure FormState (α β : Type) where
  formC : Option α
  filesC : Option β
  drains : Nat
deriving DecidableEq

def freshFormState {α β : Type} : FormState α β :=
  { formC := none, filesC := none, drains := 0 }

/-- `Request::load_form_data`: nothing to do when the form cell is
filled; otherwise one parser run (draining the body) fills both cells or
surfaces the parse error. -/
def load_form_data {α β E : Type} (pr : Except E (α × β)) (s : FormState α β) :
    FormState α β × Except E Unit :=
  if s.formC.isSome then
    (s, .ok ())
  else
    match pr with
    | .error e => ({ s with drains := s.drains + 1 }, .error e)
    | .ok (f, fl) =>
      ({ formC := some f, filesC := some fl, drains := s.drains + 1 }, .ok ())

/-- `Request::form`: `load_form_data` then borrow the form cell
(`none` models the `expect` panic on a parse error). -/
def formCall {α β E : Type} (pr : Except E (α × β)) (s : FormState α β) :
    FormState α β × Option α :=
  let (s', r) := load_form_data pr s
  match r with
  | .error _ => (s', none)
  | .ok _ => (s', s'.formC)

/-- `Request::files`: `load_form_data` then borrow the files cell. -/
def filesCall {α β E : Type} (pr : Except E (α × β)) (s : FormState α β) :
    FormState α β × Option β :=
  let (s', r) := load_form_data pr s
  match r with
  | .error _ => (s', none)
  | .ok _ => (s', s'.filesC)

/-- An accessor call on the request: `form()` or `files()`. -/
inductive FCall where
  | form
  | files
deriving DecidableEq

/-- Run a sequence of accessor calls, threading the cache state. -/
def runCalls {α β E : Type} (pr : Except E (α × β)) : List FCall → FormState α β → FormState α β
  | [], s => s
  | .form :: rest, s => runCalls pr rest (formCall pr s).1
  | .files :: rest, s => runCalls pr rest (filesCall pr s).1

/-! ## Form parser (src/formparser.rs)

The urlencoded codec is the `url` crate's `form_urlencoded` module
(external collaborator), modelled byte-for-byte: sequences are split on
`&` (38), a sequence splits on the first `=` (61) into name and value,
empty sequences are skipped, and each side is decoded by replacing `+`
(43) with space (32) and then percent-decoding.  Fields are kept as raw
byte lists; the source's final lossy UTF-8 step is a bijection on the
valid-UTF-8 data considered here.  `MultiDict` (whose `datastructures.rs`
is not part of the source tree) is modelled from the spec as an ordered
multi-value map whose `add` appends, so filling the fields map with
`add` in order yields exactly the parsed list.
-/

/-- Value of an ASCII hex digit, as in the `percent-encoding` crate. -/
def hexVal (c : Nat) : Option Nat :=
  if 48 ≤ c ∧ c ≤ 57 then some (c - 48)
  else if 65 ≤ c ∧ c ≤ 70 then some (c - 55)
  else if 97 ≤ c ∧ c ≤ 102 then some (c - 87)
  else none

/-- `replace_plus` of `form_urlencoded::parse`: `+` becomes space. -/
def replacePlus (l : List Nat) : List Nat :=
  l.map (fun b => if b = 43 then 32 else b)

/-- Percent-decoding of the `percent-encoding` crate: `%XY` with two hex
digits becomes one byte; a `%` not followed by two hex digits is kept
and decoding continues right after it. -/
def pctDecode (l : List Nat) : List Nat :=
  match l with
  | [] => []
  | c :: rest =>
    if c = 37 then
      match rest with
      | a :: b :: rest2 =>
        match hexVal a, hexVal b with
        | some x, some y => (16 * x + y) :: pctDecode rest2
        | _, _ => 37 :: pctDecode (a :: b :: rest2)
      | [a] => 37 :: pctDecode [a]
      | [] => 37 :: pctDecode []
    else
      c :: pctDecode rest
termination_by l.length
decreasing_by
  all_goals simp +arith [List.length_cons]

/-- `decode` of `form_urlencoded::parse`: plus replacement then
percent-decoding. -/
def formDecode (l : List Nat) : List Nat :=
  pctDecode (replacePlus l)

/-- Split at the first occurrence of `sep`: the part before it and,
when `sep` occurs, the part after it. -/
def splitFirst (sep : Nat) : List Nat → List Nat × Option (List Nat)
  | [] => ([], none)
  | c :: rest =>
    if c = sep then ([], some rest)
    else
      let (a, r) := splitFirst sep rest
      (c :: a, r)

theorem splitFirst_some_length {sep : Nat} :
    ∀ {l rest : List Nat}, (splitFirst sep l).2 = some rest → rest.length < l.length := by
  intro l
  induction l with
  | nil => intro rest h; simp [splitFirst] at h
  | cons c cs ih =>
    intro rest h
    by_cases hc : c = sep
    · simp only [splitFirst, if_pos hc, Option.some.injEq] at h
      subst h
      simp
    · rcases hsp : splitFirst sep cs with ⟨a, r⟩
      simp only [splitFirst, if_neg hc, hsp] at h
      have := ih (by rw [hsp]; exact h)
      simp only [List.length_cons]
      omega

/-- A sequence's name/value split on the first `=`, each side decoded
(`form_urlencoded::parse`: a sequence without `=` has an empty value). -/
def decodeSeq (seq : List Nat) : List Nat × List Nat :=
  match splitFirst 61 seq with
  | (name, some value) => (formDecode name, formDecode value)
  | (name, none) => (formDecode name, [])

/-- The `form_urlencoded::parse` iterator: split the input on `&`,
skip empty sequences, decode each remaining sequence. -/
def parseFormUrlencoded (l : List Nat) : List (List Nat × List Nat) :=
  match h : splitFirst 38 l with
  | (seq, none) => if seq.isEmpty then [] else [decodeSeq seq]
  | (seq, some rest) =>
    if seq.isEmpty then parseFormUrlencoded rest
    else decodeSeq seq :: parseFormUrlencoded rest
termination_by l.length
decreasing_by
  all_goals exact splitFirst_some_length (by rw [h])

/-- Mimetype of a request, as the `mime` crate hands it to
`formparser::parse`: top-level type, subtype and parameters (the crate
normalises type, subtype and parameter names to lower case). -/
structure MimeM where
  type_ : String
  subtype : String
  params : List (String × String)
deriving DecidableEq

/-- Error type of src/formparser.rs. -/
inductive FPError where
  | streamReadError
  | noBoundaryError
  | multipartParseError
  | multipartStringDecodingError
deriving DecidableEq

/-- `parse` from src/formparser.rs.  `ctype` is the request's parsed
Content-Type header (if any), `body` the outcome of draining the body
stream (`load_body`; an error is a network-level failure), and
`multipartGo` stands for the `multipart` crate's part iteration over the
drained body (lines 65-79 of the source), entered only once a boundary
parameter exists.  Field values stay as raw bytes (see above). -/
def formparser_parse (ctype : Option MimeM) (body : Except Unit (List Nat))
    (multipartGo : String → List Nat →
      Except FPError (List (List Nat × List Nat) × List (String × List Nat))) :
    Except FPError (List (List Nat × List Nat) × List (String × List Nat)) :=
  match ctype with
  | none => .ok ([], [])
  | some mime =>
    let mt := (mime.type_, mime.subtype)
    if mt = ("application", "x-www-form-urlencoded") ∨ mt = ("multipart", "form-data") then
      match body with
      | .error _ => .error .streamReadError
      | .ok bytes =>
        if mt = ("application", "x-www-form-urlencoded") then
          .ok (parseFormUrlencoded bytes, [])
        else
          match mime.params.lookup "boundary" with
          | none => .error .noBoundaryError
          | some boundary => multipartGo boundary bytes
    else
      .ok ([], [])

/-! ### The percent-encoder of the round-trip claim

Modelled from the `url` crate's form-urlencoded serializer: space
becomes `+`; ASCII alphanumerics and `*`, `-`, `.`, `_` pass through;
every other byte becomes `%XY` with uppercase hex digits. -/

def isSafeByte (b : Nat) : Bool :=
  (48 ≤ b && b ≤ 57) || (65 ≤ b && b ≤ 90) || (97 ≤ b && b ≤ 122) ||
  b = 42 || b = 45 || b = 46 || b = 95

def hexDigitU (n : Nat) : Nat :=
  if n < 10 then 48 + n else 55 + n

def encByte (b : Nat) : List Nat :=
  if b = 32 then [43]
  else if isSafeByte b then [b]
  else [37, hexDigitU (b / 16), hexDigitU (b % 16)]

def encBytes (bs : List Nat) : List Nat :=
  bs.flatMap encByte

/-- One serialized `key=value` pair. -/
def encPair (p : List Nat × List Nat) : List Nat :=
  encBytes p.1 ++ 61 :: encBytes p.2

/-- A body built by percent-encoding the exact pair sequence, pairs
joined with `&`. -/
def serializeForm : List (List Nat × List Nat) → List Nat
  | [] => []
  | [p] => encPair p
  | p :: q :: rest => encPair p ++ 38 :: serializeForm (q :: rest)

/-! ## Supporting lemmas -/

theorem removeAux_none_eq (ikey : String) :
    ∀ l : List (String × String),
      Headers.removeAux ikey l none = (l.filter (fun kv => asciiLower kv.1 ≠ ikey), none) := by
  intro l
  induction l with
  | nil => simp [Headers.removeAux]
  | cons kv rest ih =>
    obtain ⟨k, v⟩ := kv
    by_cases hk : asciiLower k ≠ ikey
    · simp [Headers.removeAux, hk, ih, List.filter_cons]
    · simp [Headers.removeAux, hk, ih, List.filter_cons]

theorem setAux_true_eq (ikey key value : String) :
    ∀ l : List (String × String),
      Headers.setAux ikey key value l true = l.filter (fun kv => asciiLower kv.1 ≠ ikey) := by
  intro l
  induction l with
  | nil => simp [Headers.setAux]
  | cons kv rest ih =>
    obtain ⟨k, v⟩ := kv
    by_cases hk : asciiLower k ≠ ikey
    · simp [Headers.setAux, hk, ih, List.filter_cons]
    · simp [Headers.setAux, hk, ih, List.filter_cons]

/-- The behaviour `Headers::set` actually has, stated directly: replace
the first case-insensitive match with the new pair and drop the later
matches; append when nothing matches. -/
def setReplaceFirst (ikey key value : String) : List (String × String) → List (String × String)
  | [] => [(key, value)]
  | (k, v) :: rest =>
    if asciiLower k = ikey then
      (key, value) :: rest.filter (fun kv => asciiLower kv.1 ≠ ikey)
    else
      (k, v) :: setReplaceFirst ikey key value rest

theorem setAux_false_eq (ikey key value : String) :
    ∀ l : List (String × String),
      Headers.setAux ikey key value l false = setReplaceFirst ikey key value l := by
  intro l
  induction l with
  | nil => simp [Headers.setAux, setReplaceFirst]
  | cons kv rest ih =>
    obtain ⟨k, v⟩ := kv
    by_cases hk : asciiLower k = ikey
    · simp [Headers.setAux, hk, setReplaceFirst, setAux_true_eq]
    · simp [Headers.setAux, hk, setReplaceFirst, ih]

theorem countP_filter_ne_zero (ikey : String) (l : List (String × String)) :
    (l.filter (fun kv => asciiLower kv.1 ≠ ikey)).countP
      (fun kv => asciiLower kv.1 = ikey) = 0 := by
  induction l with
  | nil => simp
  | cons kv rest ih =>
    by_cases hk : asciiLower kv.1 = ikey
    · simp [List.filter_cons, hk, ih]
    · simp [List.filter_cons, hk, List.countP_cons, ih]

theorem countP_setReplaceFirst (ikey key value : String) (hkey : asciiLower key = ikey) :
    ∀ l : List (String × String),
      (setReplaceFirst ikey key value l).countP (fun kv => asciiLower kv.1 = ikey) = 1 := by
  intro l
  induction l with
  | nil => simp [setReplaceFirst, List.countP_cons, hkey]
  | cons kv rest ih =>
    by_cases hk : asciiLower kv.1 = ikey
    · simp [setReplaceFirst, hk, List.countP_cons, hkey, countP_filter_ne_zero]
    · simp [setReplaceFirst, hk, List.countP_cons, ih]

theorem lookup_headerInsertN (k v : String) :
    ∀ hs : List (String × String), (headerInsertN hs k v).lookup k = some v := by
  intro hs
  induction hs with
  | nil => simp [headerInsertN, List.lookup]
  | cons kv rest ih =>
    obtain ⟨k', v'⟩ := kv
    by_cases hk : k' = k
    · simp [headerInsertN, hk, List.lookup]
    · have hne : (k == k') = false := beq_eq_false_iff_ne.mpr (Ne.symm hk)
      simp [headerInsertN, hk, List.lookup, hne, ih]

/-! ## Claims -/

/-- C10: `Headers::remove` deletes every entry whose key matches
case-insensitively, and its returned value is always `none` — the
documented "returns the first value at the key" never happens, because
the loop only ever assigns `rv` when `rv` is already non-`None`. -/
theorem headers_remove_deletes_all_returns_none (l : List (String × String)) (key : String) :
    Headers.remove ⟨l⟩ key =
      (⟨l.filter (fun kv => asciiLower kv.1 ≠ asciiLower key)⟩, none) := by
  simp [Headers.remove, removeAux_none_eq]

/-- C6 counterexample: `set("a", "3")` on `[("a","1"),("b","2")]` keeps
the new pair at the first position, so the single entry for the key is
not the last element of the map, contradicting the claimed
remove-then-append-at-end behaviour. -/
theorem headers_set_not_append_at_end :
    (Headers.set ⟨[("a", "1"), ("b", "2")]⟩ "a" "3").list = [("a", "3"), ("b", "2")]
    ∧ (Headers.set ⟨[("a", "1"), ("b", "2")]⟩ "a" "3").list ≠ [("b", "2"), ("a", "3")]
    ∧ ((Headers.set ⟨[("a", "1"), ("b", "2")]⟩ "a" "3").list.getLast?).map
        (fun kv => asciiLower kv.1) ≠ some (asciiLower "a") := by
  refine ⟨by decide, by decide, by decide⟩

/-- C6 (amended): `set(k, v)` removes every entry matching `k`
case-insensitively and inserts exactly one `(k, v)` pair — at the
position of the first previously matching entry, or appended at the end
when no entry matched (`setReplaceFirst`); afterwards exactly one entry
matches `k`. -/
theorem headers_set_replace_first (l : List (String × String)) (key value : String) :
    (Headers.set ⟨l⟩ key value).list = setReplaceFirst (asciiLower key) key value l
    ∧ (Headers.set ⟨l⟩ key value).list.countP
        (fun kv => asciiLower kv.1 = asciiLower key) = 1 := by
  constructor
  · simp [Headers.set, setAux_false_eq]
  · simp [Headers.set, setAux_false_eq, countP_setReplaceFirst]

/-- C9 counterexample: `"text/charset"` starts with `text/` and carries
no parameter at all (no `;` occurs), yet the setter stores it unchanged,
because the source tests for the substring `"charset"` anywhere in the
mimetype rather than for a charset parameter. -/
theorem set_content_type_charset_substring_cex :
    get_content_type "text/charset" "UTF-8" = "text/charset"
    ∧ strHasLead "text/charset" "text/" = true
    ∧ ';' ∉ "text/charset".data
    ∧ (ResponseN.set_content_type (ResponseN.new []) "text/charset").content_type
        = some "text/charset"
    ∧ ("text/charset" : String) ≠ "text/charset; charset=UTF-8" := by
  refine ⟨by decide, by decide, by decide, by decide, by decide⟩

/-- C9 (amended): a mimetype starting with `text/`, equal to
`application/xml`, or starting with `application/` and ending in `+xml`,
is stored with `; charset=UTF-8` appended when the substring `charset`
occurs nowhere in it (not merely when it lacks a charset parameter); any
other mimetype, and any mimetype mentioning `charset`, is stored
unchanged. -/
theorem set_content_type_spec (r : ResponseN) (m : String) :
    (r.set_content_type m).content_type =
      some (if (strHasLead m "text/" || (m == "application/xml") ||
                (strHasLead m "application/" && strHasTail m "+xml")) &&
               !(strHasSub m "charset") then
              m ++ "; charset=" ++ "UTF-8"
            else m) := by
  unfold ResponseN.set_content_type ResponseN.content_type
  rw [lookup_headerInsertN]
  unfold get_content_type
  split <;> rfl

theorem load_form_data_filled {α β E : Type} (pr : Except E (α × β)) (s : FormState α β)
    (h : s.formC.isSome = true) : load_form_data pr s = (s, .ok ()) := by
  simp [load_form_data, h]

theorem runCalls_filled {α β E : Type} (pr : Except E (α × β)) :
    ∀ (calls : List FCall) (s : FormState α β),
      s.formC.isSome = true → runCalls pr calls s = s := by
  intro calls
  induction calls with
  | nil => intro s h; rfl
  | cons c rest ih =>
    intro s h
    cases c
    · show runCalls pr rest (formCall pr s).1 = s
      rw [show (formCall pr s).1 = s by simp [formCall, load_form_data_filled pr s h]]
      exact ih s h
    · show runCalls pr rest (filesCall pr s).1 = s
      rw [show (filesCall pr s).1 = s by simp [filesCall, load_form_data_filled pr s h]]
      exact ih s h

/-- C3: calling `form()`/`files()` in any order and any number of times
parses the body exactly once.  Whichever accessor runs first moves the
fresh request state to the state with both caches filled and one parser
run recorded; the whole remaining call sequence leaves that state
untouched, and on the filled state either accessor returns its cached
value without another body read. -/
theorem form_files_parse_once {α β E : Type} (f : α) (fl : β) (c : FCall) (calls : List FCall) :
    runCalls (Except.ok (f, fl) : Except E (α × β)) (c :: calls) freshFormState
      = { formC := some f, filesC := some fl, drains := 1 }
    ∧ formCall (Except.ok (f, fl) : Except E (α × β))
        { formC := some f, filesC := some fl, drains := 1 }
      = ({ formC := some f, filesC := some fl, drains := 1 }, some f)
    ∧ filesCall (Except.ok (f, fl) : Except E (α × β))
        { formC := some f, filesC := some fl, drains := 1 }
      = ({ formC := some f, filesC := some fl, drains := 1 }, some fl) := by
  refine ⟨?_, ?_, ?_⟩
  · cases c
    · show runCalls _ calls (formCall _ freshFormState).1 = _
      rw [show (formCall (Except.ok (f, fl) : Except E (α × β)) freshFormState).1
          = { formC := some f, filesC := some fl, drains := 1 } by
        simp [formCall, load_form_data, freshFormState]]
      exact runCalls_filled _ calls _ rfl
    · show runCalls _ calls (filesCall _ freshFormState).1 = _
      rw [show (filesCall (Except.ok (f, fl) : Except E (α × β)) freshFormState).1
          = { formC := some f, filesC := some fl, drains := 1 } by
        simp [filesCall, load_form_data, freshFormState]]
      exact runCalls_filled _ calls _ rfl
  · simp [formCall, load_form_data]
  · simp [filesCall, load_form_data]

/-! ### Dispatcher claims -/

/-- Application with one registered teardown function and a view that
fails with an unhandled user error. -/
def appTeardown : Pencil :=
  { view_functions := [("v", fun _ => .error (.PenUserError ⟨"boom"⟩))],
    before_request_funcs := [],
    after_request_funcs := [],
    teardown_request_funcs := ["t"],
    error_handlers := [] }

theorem filter_isTeardown_beforeHooks (l : List String) :
    (l.map Event.beforeHook).filter Event.isTeardown = [] := by
  induction l with
  | nil => rfl
  | cons x rest ih => simp [Event.isTeardown, ih]

theorem full_dispatch_request_trace (app : Pencil) (cap : CapturesOutcome) :
    (app.full_dispatch_request cap).2 = app.before_request_funcs.map Event.beforeHook := by
  unfold Pencil.full_dispatch_request
  split <;> rfl

/-- C2: the teardown hooks never run during `handle_request` — the
dispatch trace of any application on any routing outcome contains no
teardown event, even though `do_teardown_request` would produce them
(shown on `appTeardown`, whose view fails with an unhandled error). -/
theorem handle_request_never_runs_teardown :
    (∀ (app : Pencil) (cap : CapturesOutcome),
      ((app.handle_request cap).2).filter Event.isTeardown = [])
    ∧ appTeardown.do_teardown_request = [Event.teardownHook "t"]
    ∧ (appTeardown.handle_request (.ok "v" [])).2 = [Event.logError "boom"] := by
  refine ⟨?_, rfl, rfl⟩
  intro app cap
  unfold Pencil.handle_request
  rcases h : app.full_dispatch_request cap with ⟨res, tr⟩
  have htr : tr = app.before_request_funcs.map Event.beforeHook := by
    have := full_dispatch_request_trace app cap
    rw [h] at this
    exact this
  cases res with
  | ok response => simp [htr, filter_isTeardown_beforeHooks]
  | error e =>
    simp only [Pencil.handle_error, htr]
    simp [List.filter_append, filter_isTeardown_beforeHooks, Event.isTeardown]

/-- Application whose view fails with an HTTP 404 error; no error
handler is registered. -/
def appHttpErr : Pencil :=
  { view_functions := [("v", fun _ => .error (.PenHTTPError ⟨404⟩))],
    before_request_funcs := [],
    after_request_funcs := [],
    teardown_request_funcs := [],
    error_handlers := [] }

/-- C1 counterexample: the discriminant "Not Found" of the view's HTTP
404 error has no registered handler, yet the produced response is the
404 page of that error — not the generic Internal Server Error
response.  (No error escapes; the claim's "any unhandled discriminant
becomes the generic 500" part is what fails.) -/
theorem unhandled_http_error_is_not_500 :
    appHttpErr.error_handlers.lookup (PencilError.PenHTTPError ⟨404⟩).description = none
    ∧ (appHttpErr.handle_request (.ok "v" [])).1.status = 404
    ∧ (appHttpErr.handle_request (.ok "v" [])).1 ≠ HTTPErrorM.to_response ⟨500⟩ := by
  refine ⟨rfl, rfl, by decide⟩

/-- C1 (amended): `handle_request` is total by construction, and a
dispatch error whose discriminant has no registered handler is converted
to a response rather than propagated: an HTTP error becomes its own
default HTTP error response (with the post-hooks applied), while a user
error degrades to the generic Internal Server Error response. -/
theorem handle_request_unhandled_error (app : Pencil) (cap : CapturesOutcome)
    (e : PencilError)
    (hd : app.dispatch_request cap = .error e)
    (hh : app.error_handlers.lookup e.description = none) :
    (app.handle_request cap).1 =
      match e with
      | .PenHTTPError he => app.process_response he.to_response
      | .PenUserError _ => HTTPErrorM.to_response ⟨500⟩ := by
  cases e with
  | PenHTTPError he =>
    simp [Pencil.handle_request, Pencil.full_dispatch_request, hd,
      Pencil.handle_user_error, Pencil.handle_http_error,
      show app.error_handlers.lookup he.description = none from hh, make_response]
  | PenUserError u =>
    simp [Pencil.handle_request, Pencil.full_dispatch_request, hd,
      Pencil.handle_user_error,
      show app.error_handlers.lookup u.desc = none from hh,
      Pencil.handle_error, PencilError.description, make_response]

theorem handle_request_unhandled_error_witness :
    appHttpErr.dispatch_request (.ok "v" []) = .error (.PenHTTPError ⟨404⟩)
    ∧ appHttpErr.error_handlers.lookup (PencilError.PenHTTPError ⟨404⟩).description = none
    ∧ (appHttpErr.handle_request (.ok "v" [])).1
        = appHttpErr.process_response (HTTPErrorM.to_response ⟨404⟩) :=
  ⟨rfl, rfl, handle_request_unhandled_error appHttpErr (.ok "v" []) (.PenHTTPError ⟨404⟩) rfl rfl⟩

/-- Application with no rules, hooks or handlers at all. -/
def appBare : Pencil :=
  { view_functions := [],
    before_request_funcs := [],
    after_request_funcs := [],
    teardown_request_funcs := [],
    error_handlers := [] }

/-- C4: a dispatch whose route resolution fails (the source's catch-all
arm for a routing error, hence also for a 404) does not produce a 404
response at all: `dispatch_request` answers `Ok(PenString("404"))`, so
the final response has status 200 with the literal body "404", although
the status table does hold the canonical reason phrase for 404. -/
theorem routing_error_yields_200_body_404 :
    (appBare.handle_request CapturesOutcome.err).1.status = 200
    ∧ (appBare.handle_request CapturesOutcome.err).1.body = "404"
    ∧ (appBare.handle_request CapturesOutcome.err).1.status ≠ 404
    ∧ get_name_by_http_code 404 = some "Not Found" := by
  refine ⟨rfl, rfl, by decide, rfl⟩

/-- A 500-byte file whose bytes are `0,1,...,255,0,1,...`. -/
def file500 : List Nat :=
  (List.range 500).map (· % 256)

set_option maxRecDepth 4000 in
/-- C5: serving the single range `bytes=0-99` of a 500-byte file gives
status 206 and the first 100 bytes of the file, but the emitted
`Content-Range` is `bytes 0-99/100`: the complete-length slot receives
the length of the partial body (`buf.len()`), not the full resource
size 500 the claim requires. -/
theorem send_file_range_complete_length_is_body_length :
    send_file_range true file500 "application/octet-stream" false none
        (some [(RBound.included 0, RBound.included 99)])
      = .ok (some
          { status_code := 206,
            headers := [("content-type", "application/octet-stream"),
                        ("content-length", "100"),
                        ("content-range", "bytes 0-99/100")],
            body := some (List.range 100) })
    ∧ (List.range 100).length = 100
    ∧ List.range 100 = file500.take 100
    ∧ ("bytes 0-99/100" : String) ≠ "bytes 0-99/500" := by
  refine ⟨rfl, rfl, rfl, by decide⟩

/-! ### Round-trip lemmas for the urlencoded codec -/

theorem hexDigitU_ne (n : Nat) :
    hexDigitU n ≠ 38 ∧ hexDigitU n ≠ 61 ∧ hexDigitU n ≠ 43 ∧ hexDigitU n ≠ 37 := by
  unfold hexDigitU
  split <;> omega

theorem hexVal_hexDigitU (n : Nat) (h : n ≤ 15) : hexVal (hexDigitU n) = some n := by
  unfold hexDigitU
  rcases Nat.lt_or_ge n 10 with hn | hn
  · rw [if_pos hn]
    unfold hexVal
    rw [if_pos (by omega)]
    simp
  · rw [if_neg (by omega)]
    unfold hexVal
    rw [if_neg (by omega), if_pos (by omega)]
    simp

theorem isSafeByte_ne {b : Nat} (h : isSafeByte b = true) :
    b ≠ 38 ∧ b ≠ 61 ∧ b ≠ 43 ∧ b ≠ 37 ∧ b ≠ 32 := by
  simp [isSafeByte] at h
  omega

theorem mem_encByte_ne {b x : Nat} (hx : x ∈ encByte b) : x ≠ 38 ∧ x ≠ 61 := by
  unfold encByte at hx
  by_cases h32 : b = 32
  · rw [if_pos h32] at hx
    have : x = 43 := List.mem_singleton.mp hx
    omega
  · rw [if_neg h32] at hx
    by_cases hsafe : isSafeByte b = true
    · rw [if_pos hsafe] at hx
      have hxb : x = b := List.mem_singleton.mp hx
      subst hxb
      have := isSafeByte_ne hsafe
      exact ⟨this.1, this.2.1⟩
    · rw [if_neg hsafe] at hx
      have h1 := hexDigitU_ne (b / 16)
      have h2 := hexDigitU_ne (b % 16)
      simp at hx
      rcases hx with rfl | rfl | rfl
      · omega
      · exact ⟨h1.1, h1.2.1⟩
      · exact ⟨h2.1, h2.2.1⟩

theorem not_mem_encBytes_38 (bs : List Nat) : 38 ∉ encBytes bs := by
  intro hmem
  rw [encBytes, List.mem_flatMap] at hmem
  obtain ⟨b, -, hb⟩ := hmem
  exact (mem_encByte_ne hb).1 rfl

theorem not_mem_encBytes_61 (bs : List Nat) : 61 ∉ encBytes bs := by
  intro hmem
  rw [encBytes, List.mem_flatMap] at hmem
  obtain ⟨b, -, hb⟩ := hmem
  exact (mem_encByte_ne hb).2 rfl

theorem splitFirst_of_not_mem {sep : Nat} :
    ∀ {a : List Nat}, sep ∉ a → splitFirst sep a = (a, none) := by
  intro a
  induction a with
  | nil => intro h; rfl
  | cons c rest ih =>
    intro h
    have hc : ¬c = sep := fun hc => h (hc ▸ List.mem_cons_self c rest)
    have hrest : sep ∉ rest := fun hr => h (List.mem_cons_of_mem c hr)
    simp [splitFirst, hc, ih hrest]

theorem splitFirst_append {sep : Nat} :
    ∀ {a : List Nat} (b : List Nat), sep ∉ a → splitFirst sep (a ++ sep :: b) = (a, some b) := by
  intro a
  induction a with
  | nil => intro b h; simp [splitFirst]
  | cons c rest ih =>
    intro b h
    have hc : ¬c = sep := fun hc => h (hc ▸ List.mem_cons_self c rest)
    have hrest : sep ∉ rest := fun hr => h (List.mem_cons_of_mem c hr)
    simp [splitFirst, hc, ih b hrest]

theorem pctDecode_nil : pctDecode [] = [] := by
  rw [pctDecode.eq_def]

theorem pctDecode_cons_ne (c : Nat) (rest : List Nat) (hc : ¬c = 37) :
    pctDecode (c :: rest) = c :: pctDecode rest := by
  rw [pctDecode.eq_def]
  simp [hc]

theorem pctDecode_step (b : Nat) (t : List Nat) (hb : b < 256) :
    pctDecode (replacePlus (encByte b ++ t)) = b :: pctDecode (replacePlus t) := by
  rw [show replacePlus (encByte b ++ t) = replacePlus (encByte b) ++ replacePlus t by
    simp [replacePlus]]
  by_cases h32 : b = 32
  · subst h32
    rw [show replacePlus (encByte 32) = [32] from rfl]
    exact pctDecode_cons_ne 32 _ (by omega)
  · unfold encByte
    rw [if_neg h32]
    by_cases hsafe : isSafeByte b = true
    · rw [if_pos hsafe]
      have hne := isSafeByte_ne hsafe
      rw [show replacePlus [b] = [b] by simp [replacePlus, hne.2.2.1]]
      exact pctDecode_cons_ne b _ hne.2.2.2.1
    · rw [if_neg hsafe]
      have h16 : b / 16 ≤ 15 := by omega
      have hm16 : b % 16 ≤ 15 := by omega
      have hd1 := hexDigitU_ne (b / 16)
      have hd2 := hexDigitU_ne (b % 16)
      rw [show replacePlus [37, hexDigitU (b / 16), hexDigitU (b % 16)]
          = [37, hexDigitU (b / 16), hexDigitU (b % 16)] by
        simp [replacePlus, hd1.2.2.1, hd2.2.2.1]]
      rw [pctDecode.eq_def]
      simp only [List.cons_append, List.nil_append, if_true]
      rw [hexVal_hexDigitU _ h16, hexVal_hexDigitU _ hm16]
      simp [Nat.div_add_mod]

theorem formDecode_encBytes (bs : List Nat) (h : ∀ b ∈ bs, b < 256) :
    formDecode (encBytes bs) = bs := by
  induction bs with
  | nil =>
    rw [show encBytes [] = [] by simp [encBytes], formDecode,
      show replacePlus [] = [] from rfl, pctDecode_nil]
  | cons b rest ih =>
    rw [show encBytes (b :: rest) = encByte b ++ encBytes rest by simp [encBytes]]
    rw [formDecode, pctDecode_step b _ (h b (List.mem_cons_self b rest))]
    rw [show pctDecode (replacePlus (encBytes rest)) = formDecode (encBytes rest) from rfl]
    rw [ih (fun x hx => h x (List.mem_cons_of_mem b hx))]

theorem decodeSeq_encPair (k v : List Nat)
    (hk : ∀ b ∈ k, b < 256) (hv : ∀ b ∈ v, b < 256) :
    decodeSeq (encPair (k, v)) = (k, v) := by
  unfold decodeSeq encPair
  rw [splitFirst_append (encBytes v) (not_mem_encBytes_61 k)]
  show (formDecode (encBytes k), formDecode (encBytes v)) = (k, v)
  rw [formDecode_encBytes k hk, formDecode_encBytes v hv]

theorem encPair_isEmpty_false (p : List Nat × List Nat) : (encPair p).isEmpty = false := by
  unfold encPair
  rcases hk : encBytes p.1 with _ | ⟨x, rest⟩ <;> simp

theorem not_mem_encPair_38 (p : List Nat × List Nat) : 38 ∉ encPair p := by
  unfold encPair
  intro hmem
  rcases List.mem_append.mp hmem with hmem | hmem
  · exact not_mem_encBytes_38 p.1 hmem
  · rcases List.mem_cons.mp hmem with hmem | hmem
    · omega
    · exact not_mem_encBytes_38 p.2 hmem

theorem parseFU_split_none {l seq : List Nat} (h : splitFirst 38 l = (seq, none)) :
    parseFormUrlencoded l = if seq.isEmpty then [] else [decodeSeq seq] := by
  rw [parseFormUrlencoded]
  rw [h]

theorem parseFU_split_some {l seq rest : List Nat} (h : splitFirst 38 l = (seq, some rest)) :
    parseFormUrlencoded l =
      if seq.isEmpty then parseFormUrlencoded rest
      else decodeSeq seq :: parseFormUrlencoded rest := by
  rw [parseFormUrlencoded]
  rw [h]

theorem parse_serializeForm (pairs : List (List Nat × List Nat))
    (h : ∀ p ∈ pairs, (∀ b ∈ p.1, b < 256) ∧ (∀ b ∈ p.2, b < 256)) :
    parseFormUrlencoded (serializeForm pairs) = pairs := by
  induction pairs with
  | nil =>
    rw [show serializeForm [] = [] from rfl]
    rw [@parseFU_split_none [] [] rfl]
    rfl
  | cons p ps ih =>
    obtain ⟨k, v⟩ := p
    have hp := h (k, v) (List.mem_cons_self _ _)
    cases ps with
    | nil =>
      have hs : splitFirst 38 (serializeForm [(k, v)]) = (encPair (k, v), none) := by
        rw [show serializeForm [(k, v)] = encPair (k, v) from rfl]
        exact splitFirst_of_not_mem (not_mem_encPair_38 (k, v))
      rw [parseFU_split_none hs, if_neg (by simp [encPair_isEmpty_false (k, v)])]
      rw [decodeSeq_encPair k v hp.1 hp.2]
    | cons q rest =>
      have hs : splitFirst 38 (serializeForm ((k, v) :: q :: rest))
          = (encPair (k, v), some (serializeForm (q :: rest))) := by
        rw [show serializeForm ((k, v) :: q :: rest)
            = encPair (k, v) ++ 38 :: serializeForm (q :: rest) from rfl]
        exact splitFirst_append _ (not_mem_encPair_38 (k, v))
      rw [parseFU_split_some hs, if_neg (by simp [encPair_isEmpty_false (k, v)])]
      rw [decodeSeq_encPair k v hp.1 hp.2]
      rw [ih (fun x hx => h x (List.mem_cons_of_mem _ hx))]

/-- C7: parsing a body built by percent-encoding an exact sequence of
(key, value) pairs under `application/x-www-form-urlencoded` yields
exactly the original pairs, in the original order, with duplicate keys
preserved as separate entries (and no file entries). -/
theorem urlencoded_roundtrip_exact (pairs : List (List Nat × List Nat))
    (multipartGo : String → List Nat →
      Except FPError (List (List Nat × List Nat) × List (String × List Nat)))
    (h : ∀ p ∈ pairs, (∀ b ∈ p.1, b < 256) ∧ (∀ b ∈ p.2, b < 256)) :
    formparser_parse (some ⟨"application", "x-www-form-urlencoded", []⟩)
      (.ok (serializeForm pairs)) multipartGo = .ok (pairs, []) := by
  simp only [formparser_parse]
  rw [if_pos (Or.inl trivial), if_pos trivial, parse_serializeForm pairs h]

theorem urlencoded_roundtrip_exact_witness :
    (∀ p ∈ ([([97], [32, 38]), ([97], [61])] : List (List Nat × List Nat)),
      (∀ b ∈ p.1, b < 256) ∧ (∀ b ∈ p.2, b < 256))
    ∧ formparser_parse (some ⟨"application", "x-www-form-urlencoded", []⟩)
        (.ok (serializeForm [([97], [32, 38]), ([97], [61])]))
        (fun _ _ => .ok ([], []))
      = .ok ([([97], [32, 38]), ([97], [61])], []) :=
  ⟨by decide, urlencoded_roundtrip_exact _ _ (by decide)⟩

/-- C8: a `multipart/form-data` content type without a `boundary`
parameter, over a body that drains successfully, always yields the
missing-boundary parse error — never a success with empty maps. -/
theorem multipart_missing_boundary (params : List (String × String)) (bytes : List Nat)
    (multipartGo : String → List Nat →
      Except FPError (List (List Nat × List Nat) × List (String × List Nat)))
    (h : params.lookup "boundary" = none) :
    formparser_parse (some ⟨"multipart", "form-data", params⟩) (.ok bytes) multipartGo
      = .error .noBoundaryError := by
  simp only [formparser_parse]
  rw [if_pos (Or.inr trivial), if_neg (by decide), h]

theorem multipart_missing_boundary_witness :
    (([] : List (String × String)).lookup "boundary" = none)
    ∧ formparser_parse (some ⟨"multipart", "form-data", []⟩) (.ok [1, 2, 3])
        (fun _ _ => .ok ([], [])) = .error .noBoundaryError :=
  ⟨rfl, multipart_missing_boundary [] [1, 2, 3] _ rfl⟩
